import Mathlib

/-!
Shallow embedding of the WebRTC signaling relay server (the complete
variant: rooms map, hello/roster/peer-joined/peer-left notifications,
targeted `to` routing, heartbeat sweep).

Modelling conventions:
* A `ws` object is a `Conn` record; object identity is the `cid : Nat`
  field.  The JS code mutates fields of `ws` in place and stores the
  object in room sets; here room sets store `cid`s and the record store
  (`conns`) keeps every record ever created, so that a stale reference
  held in a room set after a close still resolves, exactly as a live JS
  reference would.
* `rooms` is the `Map` from room id to a `Set<ws>`: an association list
  from `String` to an insertion-ordered duplicate-free list of `cid`s.
  `Map.set`, `Map.delete`, `Set.add`, `Set.delete` keep JS semantics.
* `randomUUID()` is modelled as the fresh string `"u" ++ repr counter`;
  the only property the code relies on is freshness/uniqueness.
* JS truthiness of a string-or-null field (`msg.toF`, `ws.roomId`) is
  `truthyO`: `null`/absent and the empty string are falsy.
* A frame that fails `JSON.parse` arrives as `none`.
-/

/-- Role tag of a connection: `'sender'` or `'receiver'` (default). -/
inductive Role where
  | sender : Role
  | receiver : Role
deriving DecidableEq, Repr

/-- A parsed inbound JSON frame.  `type`, `room`, `role`, `to`, `fromF`
are the fields the server inspects (`fromF` models the JSON `from`
field); `rest` stands for all remaining fields, which the server copies
verbatim and never inspects. -/
structure Msg where
  type : Option String := none
  room : Option String := none
  role : Option String := none
  toF : Option String := none
  fromF : Option String := none
  rest : String := ""
deriving DecidableEq, Repr

/-- One `ws` connection object: `cid` is the JS object identity, `id`
the assigned UUID string, `roomId`/`role`/`isAlive` the fields the
server sets, `isOpen` models `readyState === OPEN`. -/
structure Conn where
  cid : Nat
  id : String
  roomId : Option String := none
  role : Role := Role.receiver
  isAlive : Bool := true
  isOpen : Bool := true
deriving DecidableEq, Repr

/-- A server→client message as emitted by the code. -/
inductive OutMsg where
  | hello (id : String)
  | peerJoined (id : String) (role : Role)
  | peerLeft (id : String)
  | roster (peers : List (String × Role))
  | relay (payload : Msg)
  | ping
deriving DecidableEq, Repr

/-- A delivery: recipient connection (by object identity) and message. -/
abbrev Delivery := Nat × OutMsg

/-- The rooms `Map`: association list room id → member `cid` list. -/
abbrev Rooms := List (String × List Nat)

/-- Whole-server state: record store, `wss.clients`, the rooms map and
the UUID counter. -/
structure ServerState where
  conns : List Conn
  clients : List Nat
  rooms : Rooms
  nextId : Nat
deriving DecidableEq, Repr

/-- The empty server at startup. -/
def initState : ServerState := { conns := [], clients := [], rooms := [], nextId := 0 }

/-- JS truthiness of a string-valued field: absent (`null`) and the
empty string are falsy. -/
def truthyO : Option String → Bool
  | none => false
  | some s => s != ""

/-- Resolve a `cid` to its connection record. -/
def getConn (st : ServerState) (c : Nat) : Option Conn :=
  st.conns.find? (fun w => w.cid == c)

/-- Mutate the fields of the connection object `c` in place. -/
def updateConn (st : ServerState) (c : Nat) (f : Conn → Conn) : ServerState :=
  { st with conns := st.conns.map (fun w => if w.cid == c then f w else w) }

/-- `readyState === OPEN` for a `cid` found in a room set. -/
def connOpen (st : ServerState) (c : Nat) : Bool :=
  match getConn st c with
  | some w => w.isOpen
  | none => false

/-- The `id` field of a referenced connection. -/
def connId (st : ServerState) (c : Nat) : Option String :=
  (getConn st c).map (fun w => w.id)

/-- `Map.get` on the rooms map (first entry with the key). -/
def findRoom? (rs : Rooms) (r : String) : Option (List Nat) :=
  match rs with
  | [] => none
  | (k, v) :: t => if k = r then some v else findRoom? t r

/-- `Set.add`: append if not already a member (JS insertion order). -/
def setAdd (l : List Nat) (c : Nat) : List Nat :=
  if c ∈ l then l else l ++ [c]

/-- `getRoomSet(roomId).add(ws)` fused: update the room entry in place,
creating `roomId -> {ws}` if the key is absent. -/
def addMember (rs : Rooms) (r : String) (c : Nat) : Rooms :=
  match rs with
  | [] => [(r, setAdd [] c)]
  | (k, v) :: t => if k = r then (k, setAdd v c) :: t else (k, v) :: addMember t r c

/-- `Map.set` when the key is known present: replace the value in place
(appends if absent, as JS does). -/
def mapSet (rs : Rooms) (r : String) (v : List Nat) : Rooms :=
  match rs with
  | [] => [(r, v)]
  | (k, w) :: t => if k = r then (k, v) :: t else (k, w) :: mapSet t r v

/-- `Map.delete`: drop the entry with the key. -/
def mapDelete (rs : Rooms) (r : String) : Rooms :=
  rs.filter (fun p => p.1 != r)

/-- `roster(roomId)`: `[...set].map(s => ({id: s.id, role: s.role}))`
(`s.role || 'receiver'`: `role` is always set at accept time, so the
fallback never fires). -/
def rosterD (st : ServerState) (roomId : String) : List (String × Role) :=
  match findRoom? st.rooms roomId with
  | none => []
  | some set => set.filterMap (fun c => (getConn st c).map (fun w => (w.id, w.role)))

/-- `broadcast(roomId, obj, exclude)`: send to every member of the room
set that is not `exclude` and whose socket is open. -/
def broadcastD (st : ServerState) (roomId : String) (m : OutMsg) (exclude : Option Nat) :
    List Delivery :=
  match findRoom? st.rooms roomId with
  | none => []
  | some set =>
      set.filterMap (fun c =>
        if some c ≠ exclude ∧ connOpen st c = true then some (c, m) else none)

/-- `sendTo(roomId, peerId, obj)`: the first member of the room whose
`id` matches and whose socket is open, if any. -/
def sendToD (st : ServerState) (roomId : String) (peerId : String) : Option Nat :=
  match findRoom? st.rooms roomId with
  | none => none
  | some set => set.find? (fun c => connId st c == some peerId && connOpen st c)

/-- `String.prototype.trim`: drop leading and trailing whitespace.
Written as structural recursion over the character list (core's
`String.trim` is extensionally the same but defined by well-founded
recursion on byte positions, which does not reduce in the kernel). -/
def jsTrim (s : String) : String :=
  ⟨((s.data.dropWhile Char.isWhitespace).reverse.dropWhile Char.isWhitespace).reverse⟩

/-- The six relay-eligible frame types. -/
def relayEligible : Option String → Bool
  | some t => ["offer", "answer", "candidate", "bye", "need-offer", "keepalive"].contains t
  | none => false

/-- The `join` branch of the message handler (source lines 77–91):
trim the room, assign `ws.roomId`/`ws.role`, add to the room set, then
`peer-joined` to the room excluding the joiner, a `roster` broadcast to
the whole room (no exclude), and a direct `roster` send to the joiner. -/
def handleJoin (st : ServerState) (cid : Nat) (ws : Conn) (msg : Msg) :
    ServerState × List Delivery :=
  let roomId := jsTrim (msg.room.getD "")
  let role := if msg.role = some "sender" then Role.sender else Role.receiver
  let st1 := updateConn st cid (fun w => { w with roomId := some roomId, role := role })
  let st2 := { st1 with rooms := addMember st1.rooms roomId cid }
  let outs1 := broadcastD st2 roomId (OutMsg.peerJoined ws.id role) (some cid)
  let r := rosterD st2 roomId
  let outs2 := broadcastD st2 roomId (OutMsg.roster r) none
  (st2, outs1 ++ outs2 ++ [(cid, OutMsg.roster r)])

/-- The relay branch (source lines 99–106): re-stamp `from` with the
sender's id; if `msg.toF` is truthy, unicast via `sendTo`, else
broadcast to the room excluding the sender. -/
def handleRelay (st : ServerState) (cid : Nat) (ws : Conn) (msg : Msg) :
    ServerState × List Delivery :=
  let payload := { msg with fromF := some ws.id }
  let outs :=
    if truthyO msg.toF then
      match sendToD st (ws.roomId.getD "") (msg.toF.getD "") with
      | some c => [(c, OutMsg.relay payload)]
      | none => []
    else broadcastD st (ws.roomId.getD "") (OutMsg.relay payload) (some cid)
  (st, outs)

/-- `ws.on('message')`: parse failure is a silent drop; `join` frames
with a string room go to the join branch; otherwise a falsy `ws.roomId`
drops the frame; relay-eligible types are forwarded; anything else is
ignored. -/
def handleMessage (st : ServerState) (cid : Nat) (m? : Option Msg) :
    ServerState × List Delivery :=
  match m? with
  | none => (st, [])
  | some msg =>
    match getConn st cid with
    | none => (st, [])
    | some ws =>
      if msg.type = some "join" ∧ msg.room.isSome then
        handleJoin st cid ws msg
      else if truthyO ws.roomId = false then (st, [])
      else if relayEligible msg.type then handleRelay st cid ws msg
      else (st, [])

/-- `ws.on('close')` (source lines 109–123), together with the
transport effects of closing: the socket leaves `wss.clients` and stops
being open; then, if `ws.roomId` is truthy and the rooms map has it,
delete the socket from the room set, delete the room when it became
empty, otherwise broadcast `peer-left` and a refreshed `roster` to the
remaining members. -/
def closeStep (st : ServerState) (cid : Nat) : ServerState × List Delivery :=
  match getConn st cid with
  | none => (st, [])
  | some ws =>
    let stA := updateConn st cid (fun w => { w with isOpen := false })
    let st1 := { stA with clients := stA.clients.filter (fun x => x != cid) }
    if truthyO ws.roomId ∧ (findRoom? st1.rooms (ws.roomId.getD "")).isSome then
      let r := ws.roomId.getD ""
      let set := (findRoom? st1.rooms r).getD []
      let set2 := set.filter (fun x => x != cid)
      if set2.isEmpty then ({ st1 with rooms := mapDelete st1.rooms r }, [])
      else
        let st2 := { st1 with rooms := mapSet st1.rooms r set2 }
        let o1 := broadcastD st2 r (OutMsg.peerLeft ws.id) none
        let o2 := broadcastD st2 r (OutMsg.roster (rosterD st2 r)) none
        (st2, o1 ++ o2)
    else (st1, [])

/-- `wss.on('connection')`: create the record (fresh UUID, no room,
role `receiver`, alive, open), add to `wss.clients` and send `hello`. -/
def acceptStep (st : ServerState) : ServerState × List Delivery :=
  let cid := st.nextId
  let w : Conn := { cid := cid, id := "u" ++ Nat.repr cid }
  ({ st with conns := st.conns ++ [w], clients := st.clients ++ [cid],
             nextId := st.nextId + 1 },
   [(cid, OutMsg.hello w.id)])

/-- `ws.on('pong')`: mark the connection alive. -/
def pongStep (st : ServerState) (cid : Nat) : ServerState :=
  updateConn st cid (fun w => { w with isAlive := true })

/-- Body of the heartbeat `forEach` (source lines 128–132): a dead
flag means `terminate()` — which fires the ordinary close path — and
otherwise the flag is cleared and a ping probe sent. -/
def heartbeatBody : ServerState × List Delivery → Nat → ServerState × List Delivery
  | (st, outs), cid =>
    match getConn st cid with
    | none => (st, outs)
    | some ws =>
      if ws.isAlive = false then
        let p := closeStep st cid
        (p.1, outs ++ p.2)
      else
        (updateConn st cid (fun w => { w with isAlive := false }), outs ++ [(cid, OutMsg.ping)])

/-- One `setInterval` heartbeat sweep over `wss.clients`. -/
def heartbeatSweep (st : ServerState) : ServerState × List Delivery :=
  st.clients.foldl heartbeatBody (st, [])

/-- External events driving the server. -/
inductive Event where
  | accept : Event
  | frame (cid : Nat) (m : Option Msg) : Event
  | pong (cid : Nat) : Event
  | close (cid : Nat) : Event
  | sweep : Event
deriving DecidableEq, Repr

/-- One event step.  Frame/pong/close events can only originate from a
socket that is still connected (`wss.clients`). -/
def step (st : ServerState) (e : Event) : ServerState × List Delivery :=
  match e with
  | Event.accept => acceptStep st
  | Event.frame cid m => if cid ∈ st.clients then handleMessage st cid m else (st, [])
  | Event.pong cid => if cid ∈ st.clients then (pongStep st cid, []) else (st, [])
  | Event.close cid => if cid ∈ st.clients then closeStep st cid else (st, [])
  | Event.sweep => heartbeatSweep st

/-- Run a list of events from a state, accumulating deliveries. -/
def runFrom (st : ServerState) (es : List Event) : ServerState × List Delivery :=
  match es with
  | [] => (st, [])
  | e :: t =>
    let (st1, o) := step st e
    let (st2, o2) := runFrom st1 t
    (st2, o ++ o2)

/-- Run a list of events from the initial state. -/
def runEvents (es : List Event) : ServerState × List Delivery :=
  runFrom initState es

/-- A `join` frame with the given room string (no role field). -/
def joinMsg (room : String) : Msg := { type := some "join", room := some room }

/-- Member set of a room, empty when the key is absent (the spec's
`members(room_id)`). -/
def membersOf (st : ServerState) (r : String) : List Nat :=
  (findRoom? st.rooms r).getD []

/-- Number of room entries whose member set contains the connection. -/
def roomsContaining (st : ServerState) (c : Nat) : Nat :=
  st.rooms.countP (fun p => decide (c ∈ p.2))

/-- Whether an event is a join frame from connection `c` that the
router's join branch accepts (`type === 'join'` and a string room). -/
def isJoinEv (c : Nat) : Event → Bool
  | Event.frame c' (some m) => c' == c && m.type == some "join" && m.room.isSome
  | _ => false

/-- Number of join frames connection `c` sends in a trace. -/
def joinCount (c : Nat) (es : List Event) : Nat :=
  (es.filter (isJoinEv c)).length

/-- Recognizer for `peer-joined` messages. -/
def isPeerJoinedMsg : OutMsg → Bool
  | OutMsg.peerJoined _ _ => true
  | _ => false

/-- Recognizer for `peer-left` messages. -/
def isPeerLeftMsg : OutMsg → Bool
  | OutMsg.peerLeft _ => true
  | _ => false

/-- Recognizer for `roster` messages. -/
def isRosterMsg : OutMsg → Bool
  | OutMsg.roster _ => true
  | _ => false

/-- Number of deliveries to connection `x` whose message satisfies `p`. -/
def countTo (outs : List Delivery) (x : Nat) (p : OutMsg → Bool) : Nat :=
  (outs.filter (fun d => d.1 == x && p d.2)).length

/-- Every room entry in the registry has a non-empty member set. -/
def RoomsNonEmpty (st : ServerState) : Prop :=
  ∀ p ∈ st.rooms, p.2 ≠ []

/-- Trace: one connection joins room `"a"`, then sends a second join
naming room `"b"`. -/
def trJoinTwice : List Event :=
  [Event.accept, Event.frame 0 (some (joinMsg "a")), Event.frame 0 (some (joinMsg "b"))]

/-- Trace: one connection sends a join whose room is a single blank,
which trims to the empty string. -/
def trJoinBlank : List Event :=
  [Event.accept, Event.frame 0 (some (joinMsg " "))]

/-- Trace: two connections, both joined to room `"r"`. -/
def trRoomPair : List Event :=
  [Event.accept, Event.accept,
   Event.frame 0 (some (joinMsg "r")), Event.frame 1 (some (joinMsg "r"))]

/-- Trace: three connections, the first two joined to room `"r"`. -/
def trRoomPairPlus : List Event :=
  [Event.accept, Event.accept, Event.accept,
   Event.frame 0 (some (joinMsg "r")), Event.frame 1 (some (joinMsg "r"))]

/-- Trace: two connections joined to the empty-string room (via blank
room fields), one sweep priming both liveness flags, then a pong from
the second only, leaving the first flagged dead. -/
def trBlankRoomDead : List Event :=
  [Event.accept, Event.accept,
   Event.frame 0 (some (joinMsg " ")), Event.frame 1 (some (joinMsg "")),
   Event.sweep, Event.pong 1]

/-- An `offer` frame whose `to` field is the empty string. -/
def offerEmptyTo : Msg := { type := some "offer", toF := some "", rest := "sdp" }

/-- An `offer` frame addressed to the sender's own identifier `"u0"`. -/
def offerToSelf : Msg := { type := some "offer", toF := some "u0", rest := "sdp" }

/-! ### Basic lemmas about connection lookup and update -/

theorem getConn_cid {st : ServerState} {c : Nat} {w : Conn} (h : getConn st c = some w) :
    w.cid = c := by
  simp only [getConn] at h
  have := List.find?_some h
  simpa using this

theorem find?_map_cidpres (l : List Conn) (g : Conn → Conn) (a : Nat)
    (hg : ∀ w, (g w).cid = w.cid) :
    (l.map g).find? (fun w => w.cid == a) = (l.find? (fun w => w.cid == a)).map g := by
  induction l with
  | nil => rfl
  | cons x t ih =>
    by_cases hx : x.cid = a
    · simp [List.find?, hg, hx]
    · simp only [List.map_cons, List.find?]
      have h1 : ((g x).cid == a) = false := by simp [hg, hx]
      have h2 : (x.cid == a) = false := by simp [hx]
      rw [h1, h2]
      exact ih

theorem getConn_updateConn (st : ServerState) (c a : Nat) (f : Conn → Conn)
    (hf : ∀ w, (f w).cid = w.cid) :
    getConn (updateConn st c f) a
      = (getConn st a).map (fun w => if w.cid == c then f w else w) := by
  simp only [getConn, updateConn]
  exact find?_map_cidpres st.conns (fun w => if w.cid == c then f w else w) a
    (by intro w; by_cases h : w.cid = c <;> simp [h, hf])

theorem getConn_updateConn_ne {st : ServerState} {c a : Nat} {f : Conn → Conn}
    (hf : ∀ w, (f w).cid = w.cid) (hne : a ≠ c) :
    getConn (updateConn st c f) a = getConn st a := by
  rw [getConn_updateConn st c a f hf]
  cases hga : getConn st a with
  | none => rfl
  | some w =>
    have hw := getConn_cid hga
    simp [hw, hne]

theorem getConn_updateConn_self {st : ServerState} {c : Nat} {w : Conn} {f : Conn → Conn}
    (hf : ∀ w, (f w).cid = w.cid) (h : getConn st c = some w) :
    getConn (updateConn st c f) c = some (f w) := by
  rw [getConn_updateConn st c c f hf, h]
  have hw := getConn_cid h
  simp [hw]

theorem rooms_updateConn (st : ServerState) (c : Nat) (f : Conn → Conn) :
    (updateConn st c f).rooms = st.rooms := rfl

/-! ### Lemmas about the rooms map operations -/

theorem mem_setAdd_self (l : List Nat) (c : Nat) : c ∈ setAdd l c := by
  by_cases h : c ∈ l <;> simp [setAdd, h]

theorem mem_setAdd_iff {l : List Nat} {c c' : Nat} (h : c' ≠ c) :
    c' ∈ setAdd l c ↔ c' ∈ l := by
  by_cases hc : c ∈ l <;> simp [setAdd, hc, h]

theorem setAdd_ne_nil (l : List Nat) (c : Nat) : setAdd l c ≠ [] := by
  by_cases h : c ∈ l
  · simp [setAdd, h]; rintro rfl; simp at h
  · simp [setAdd, h]

theorem findRoom?_addMember_self (rs : Rooms) (r : String) (c : Nat) :
    findRoom? (addMember rs r c) r = some (setAdd ((findRoom? rs r).getD []) c) := by
  induction rs with
  | nil => simp [addMember, findRoom?]
  | cons p t ih =>
    obtain ⟨k, v⟩ := p
    by_cases hk : k = r
    · simp [addMember, findRoom?, hk]
    · simp [addMember, findRoom?, hk, ih]

theorem findRoom?_addMember_ne {rs : Rooms} {r r' : String} {c : Nat} (h : r' ≠ r) :
    findRoom? (addMember rs r c) r' = findRoom? rs r' := by
  induction rs with
  | nil => simp [addMember, findRoom?, Ne.symm h]
  | cons p t ih =>
    obtain ⟨k, v⟩ := p
    by_cases hk : k = r
    · subst hk
      simp [addMember, findRoom?, Ne.symm h]
    · by_cases hk' : k = r' <;> simp [addMember, findRoom?, hk, hk', ih, h]

theorem findRoom?_mapSet_self (rs : Rooms) (r : String) (v : List Nat) :
    findRoom? (mapSet rs r v) r = some v := by
  induction rs with
  | nil => simp [mapSet, findRoom?]
  | cons p t ih =>
    obtain ⟨k, w⟩ := p
    by_cases hk : k = r <;> simp [mapSet, findRoom?, hk, ih]

theorem findRoom?_mapSet_ne {rs : Rooms} {r r' : String} {v : List Nat} (h : r' ≠ r) :
    findRoom? (mapSet rs r v) r' = findRoom? rs r' := by
  induction rs with
  | nil => simp [mapSet, findRoom?, Ne.symm h]
  | cons p t ih =>
    obtain ⟨k, w⟩ := p
    by_cases hk : k = r
    · subst hk
      simp [mapSet, findRoom?, Ne.symm h]
    · by_cases hk' : k = r' <;> simp [mapSet, findRoom?, hk, hk', ih, h]

theorem findRoom?_mem {rs : Rooms} {r : String} {v : List Nat}
    (h : findRoom? rs r = some v) : (r, v) ∈ rs := by
  induction rs with
  | nil => simp [findRoom?] at h
  | cons p t ih =>
    obtain ⟨k, w⟩ := p
    by_cases hk : k = r
    · subst hk
      simp [findRoom?] at h
      simp [h]
    · simp [findRoom?, hk] at h
      exact List.mem_cons_of_mem _ (ih h)

theorem findRoom?_none_membersOf {st : ServerState} {r : String}
    (h : findRoom? st.rooms r = none) : membersOf st r = [] := by
  simp [membersOf, h]

theorem findRoom?_mapDelete_self (rs : Rooms) (r : String) :
    findRoom? (mapDelete rs r) r = none := by
  induction rs with
  | nil => rfl
  | cons p t ih =>
    obtain ⟨k, v⟩ := p
    by_cases hk : k = r
    · simpa [mapDelete, hk] using ih
    · simpa [mapDelete, findRoom?, hk] using ih

theorem findRoom?_mapDelete_ne {rs : Rooms} {r r' : String} (h : r' ≠ r) :
    findRoom? (mapDelete rs r) r' = findRoom? rs r' := by
  induction rs with
  | nil => rfl
  | cons p t ih =>
    obtain ⟨k, v⟩ := p
    by_cases hk : k = r
    · subst hk
      simp only [findRoom?, if_neg (Ne.symm h)]
      simpa [mapDelete, findRoom?, Ne.symm h] using ih
    · by_cases hk' : k = r'
      · simp [mapDelete, findRoom?, hk, hk', h]
      · simpa [mapDelete, findRoom?, hk, hk'] using ih

/-! ### Non-emptiness of room entries -/

theorem addMember_nonempty {rs : Rooms} (h : ∀ p ∈ rs, p.2 ≠ []) (r : String) (c : Nat) :
    ∀ p ∈ addMember rs r c, p.2 ≠ [] := by
  induction rs with
  | nil =>
    intro p hp
    simp [addMember] at hp
    simp [hp, setAdd_ne_nil]
  | cons q t ih =>
    obtain ⟨k, v⟩ := q
    intro p hp
    by_cases hk : k = r
    · simp [addMember, hk] at hp
      rcases hp with hp | hp
      · simp [hp, setAdd_ne_nil]
      · exact h p (List.mem_cons_of_mem _ hp)
    · simp only [addMember, if_neg hk, List.mem_cons] at hp
      rcases hp with hp | hp
      · exact hp ▸ h (k, v) (List.mem_cons_self _ _)
      · exact ih (fun q hq => h q (List.mem_cons_of_mem _ hq)) p hp

theorem mapSet_nonempty {rs : Rooms} {v : List Nat} (h : ∀ p ∈ rs, p.2 ≠ [])
    (hv : v ≠ []) (r : String) : ∀ p ∈ mapSet rs r v, p.2 ≠ [] := by
  induction rs with
  | nil =>
    intro p hp
    simp [mapSet] at hp
    simp [hp, hv]
  | cons q t ih =>
    obtain ⟨k, w⟩ := q
    intro p hp
    by_cases hk : k = r
    · simp [mapSet, hk] at hp
      rcases hp with hp | hp
      · simp [hp, hv]
      · exact h p (List.mem_cons_of_mem _ hp)
    · simp only [mapSet, if_neg hk, List.mem_cons] at hp
      rcases hp with hp | hp
      · exact hp ▸ h (k, w) (List.mem_cons_self _ _)
      · exact ih (fun q hq => h q (List.mem_cons_of_mem _ hq)) p hp

theorem mapDelete_nonempty {rs : Rooms} (h : ∀ p ∈ rs, p.2 ≠ []) (r : String) :
    ∀ p ∈ mapDelete rs r, p.2 ≠ [] := by
  intro p hp
  exact h p (List.mem_of_mem_filter hp)

/-! ### Counting room entries containing a given connection -/

theorem countP_addMember_le (rs : Rooms) (r : String) (c : Nat) :
    (addMember rs r c).countP (fun p => decide (c ∈ p.2))
      ≤ rs.countP (fun p => decide (c ∈ p.2)) + 1 := by
  induction rs with
  | nil => simp [addMember, List.countP_cons, mem_setAdd_self]
  | cons q t ih =>
    obtain ⟨k, v⟩ := q
    by_cases hk : k = r
    · subst hk
      have he : addMember ((k, v) :: t) k c = (k, setAdd v c) :: t := by
        simp [addMember]
      rw [he]
      simp only [List.countP_cons]
      by_cases hc : c ∈ v
      · simp only [setAdd, if_pos hc]
        omega
      · have h1 : (decide (c ∈ setAdd v c)) = true := by simp [mem_setAdd_self]
        have h2 : (decide (c ∈ v)) = false := by simp [hc]
        rw [h1, h2]
        simp
    · have he : addMember ((k, v) :: t) r c = (k, v) :: addMember t r c := by
        simp [addMember, hk]
      rw [he]
      simp only [List.countP_cons]
      omega

theorem countP_addMember_ne (rs : Rooms) (r : String) {c c' : Nat} (h : c' ≠ c) :
    (addMember rs r c).countP (fun p => decide (c' ∈ p.2))
      = rs.countP (fun p => decide (c' ∈ p.2)) := by
  induction rs with
  | nil => simp [addMember, List.countP_cons, mem_setAdd_iff h]
  | cons q t ih =>
    obtain ⟨k, v⟩ := q
    by_cases hk : k = r
    · simp [addMember, if_pos hk, List.countP_cons, mem_setAdd_iff h]
    · simp only [addMember, if_neg hk, List.countP_cons, ih]

theorem countP_mapSetFilter_le (rs : Rooms) (r : String) (c c' : Nat) {v : List Nat}
    (h : findRoom? rs r = some v) :
    (mapSet rs r (v.filter (fun x => x != c))).countP (fun p => decide (c' ∈ p.2))
      ≤ rs.countP (fun p => decide (c' ∈ p.2)) := by
  induction rs with
  | nil => simp [findRoom?] at h
  | cons q t ih =>
    obtain ⟨k, w⟩ := q
    by_cases hk : k = r
    · subst hk
      have he : findRoom? ((k, w) :: t) k = some w := by simp [findRoom?]
      rw [he] at h
      have hv : v = w := (Option.some.inj h).symm
      subst hv
      have he2 : mapSet ((k, v) :: t) k (v.filter (fun x => x != c))
          = (k, v.filter (fun x => x != c)) :: t := by simp [mapSet]
      rw [he2]
      simp only [List.countP_cons]
      by_cases hc : c' ∈ v.filter (fun x => x != c)
      · have hw : c' ∈ v := List.mem_of_mem_filter hc
        have h1 : (decide (c' ∈ v.filter (fun x => x != c))) = true := by simp [hc]
        have h2 : (decide (c' ∈ v)) = true := by simp [hw]
        rw [h1, h2]
      · have h1 : (decide (c' ∈ v.filter (fun x => x != c))) = false := by simp [hc]
        rw [h1]
        simp
    · have he : findRoom? ((k, w) :: t) r = findRoom? t r := by simp [findRoom?, hk]
      rw [he] at h
      have he2 : mapSet ((k, w) :: t) r (v.filter (fun x => x != c))
          = (k, w) :: mapSet t r (v.filter (fun x => x != c)) := by simp [mapSet, hk]
      rw [he2]
      simp only [List.countP_cons]
      have := ih h
      omega

theorem countP_mapDelete_le (rs : Rooms) (r : String) (p : String × List Nat → Bool) :
    (mapDelete rs r).countP p ≤ rs.countP p :=
  (List.filter_sublist rs).countP_le p

/-! ### Room-count bounds across the event step relation -/

theorem rooms_acceptStep (st : ServerState) : (acceptStep st).1.rooms = st.rooms := rfl

theorem rooms_pongStep (st : ServerState) (c : Nat) : (pongStep st c).rooms = st.rooms := rfl

theorem state_handleRelay (st : ServerState) (cid : Nat) (ws : Conn) (msg : Msg) :
    (handleRelay st cid ws msg).1 = st := rfl

theorem roomsContaining_closeStep_le (st : ServerState) (c c' : Nat) :
    roomsContaining (closeStep st c).1 c' ≤ roomsContaining st c' := by
  unfold closeStep
  cases hg : getConn st c with
  | none => exact Nat.le_refl _
  | some ws =>
    dsimp only
    split
    · rename_i hcond
      obtain ⟨htr, hsome⟩ := hcond
      obtain ⟨v, hv⟩ := Option.isSome_iff_exists.mp hsome
      have hv' : findRoom? st.rooms (ws.roomId.getD "") = some v := hv
      split
      · exact countP_mapDelete_le st.rooms _ _
      · simp only [roomsContaining, rooms_updateConn, hv', Option.getD_some]
        exact countP_mapSetFilter_le st.rooms _ c c' hv'
    · exact Nat.le_refl _

theorem roomsContaining_heartbeatBody_le (st : ServerState) (outs : List Delivery)
    (c c' : Nat) :
    roomsContaining (heartbeatBody (st, outs) c).1 c' ≤ roomsContaining st c' := by
  unfold heartbeatBody
  dsimp only
  cases hg : getConn st c with
  | none => exact Nat.le_refl _
  | some ws =>
    dsimp only
    split
    · exact roomsContaining_closeStep_le st c c'
    · exact Nat.le_refl _

theorem roomsContaining_foldl_le (cids : List Nat) :
    ∀ (acc : ServerState × List Delivery) (c' : Nat),
      roomsContaining (cids.foldl heartbeatBody acc).1 c' ≤ roomsContaining acc.1 c' := by
  induction cids with
  | nil =>
    intro acc c'
    exact Nat.le_refl _
  | cons x t ih =>
    intro acc c'
    obtain ⟨st, outs⟩ := acc
    exact Nat.le_trans (ih (heartbeatBody (st, outs) x) c')
      (roomsContaining_heartbeatBody_le st outs x c')

theorem handleMessage_state_of_not_join {st : ServerState} {cid : Nat} {msg : Msg}
    (h : ¬(msg.type = some "join" ∧ msg.room.isSome)) :
    (handleMessage st cid (some msg)).1 = st := by
  unfold handleMessage
  dsimp only
  cases hg : getConn st cid with
  | none => rfl
  | some ws =>
    dsimp only
    rw [if_neg h]
    split
    · rfl
    · split
      · exact state_handleRelay st cid ws msg
      · rfl

theorem rooms_handleJoin (st : ServerState) (cid : Nat) (ws : Conn) (msg : Msg) :
    (handleJoin st cid ws msg).1.rooms
      = addMember st.rooms (jsTrim (msg.room.getD "")) cid := rfl

theorem roomsContaining_handleMessage_le (st : ServerState) (cid : Nat) (m? : Option Msg)
    (c : Nat) :
    roomsContaining (handleMessage st cid m?).1 c
      ≤ roomsContaining st c + (if isJoinEv c (Event.frame cid m?) then 1 else 0) := by
  cases m? with
  | none => simp [handleMessage, isJoinEv]
  | some msg =>
    by_cases hj : msg.type = some "join" ∧ msg.room.isSome
    · cases hg : getConn st cid with
      | none =>
        have hst : (handleMessage st cid (some msg)).1 = st := by
          unfold handleMessage
          dsimp only
          rw [hg]
        rw [hst]
        exact Nat.le_add_right _ _
      | some ws =>
        have hred : handleMessage st cid (some msg) = handleJoin st cid ws msg := by
          unfold handleMessage
          dsimp only
          rw [hg]
          dsimp only
          rw [if_pos hj]
        rw [hred]
        by_cases hc : cid = c
        · subst hc
          have hev : isJoinEv cid (Event.frame cid (some msg)) = true := by
            simp [isJoinEv, hj.1, hj.2]
          rw [hev, if_pos rfl]
          simp only [roomsContaining, rooms_handleJoin]
          exact countP_addMember_le st.rooms _ cid
        · have hcc : c ≠ cid := fun hx => hc hx.symm
          simp only [roomsContaining, rooms_handleJoin,
            countP_addMember_ne st.rooms (jsTrim (msg.room.getD "")) hcc]
          exact Nat.le_add_right _ _
    · rw [handleMessage_state_of_not_join hj]
      exact Nat.le_add_right _ _

theorem roomsContaining_step_le (st : ServerState) (e : Event) (c : Nat) :
    roomsContaining (step st e).1 c
      ≤ roomsContaining st c + (if isJoinEv c e then 1 else 0) := by
  cases e with
  | accept =>
    simp only [step]
    exact Nat.le_add_right _ _
  | frame cid m =>
    simp only [step]
    split
    · exact roomsContaining_handleMessage_le st cid m c
    · exact Nat.le_add_right _ _
  | pong cid =>
    simp only [step]
    split
    · exact Nat.le_add_right _ _
    · exact Nat.le_add_right _ _
  | close cid =>
    simp only [step]
    split
    · exact Nat.le_trans (roomsContaining_closeStep_le st cid c) (Nat.le_add_right _ _)
    · exact Nat.le_add_right _ _
  | sweep =>
    simp only [step, heartbeatSweep]
    exact Nat.le_trans (roomsContaining_foldl_le st.clients (st, []) c)
      (Nat.le_add_right _ _)

theorem joinCount_cons (c : Nat) (e : Event) (t : List Event) :
    joinCount c (e :: t) = (if isJoinEv c e then 1 else 0) + joinCount c t := by
  simp only [joinCount, List.filter_cons]
  split
  · simp [Nat.add_comm]
  · simp

theorem runFrom_cons (st : ServerState) (e : Event) (t : List Event) :
    runFrom st (e :: t)
      = ((runFrom (step st e).1 t).1, (step st e).2 ++ (runFrom (step st e).1 t).2) := by
  show (let (st1, o) := step st e
        let (st2, o2) := runFrom st1 t
        (st2, o ++ o2)) = _
  rcases hs : step st e with ⟨st1, o⟩
  rcases hr : runFrom st1 t with ⟨st2, o2⟩
  simp [hs, hr]

theorem roomsContaining_runFrom_le (es : List Event) :
    ∀ (st : ServerState) (c : Nat),
      roomsContaining (runFrom st es).1 c ≤ roomsContaining st c + joinCount c es := by
  induction es with
  | nil =>
    intro st c
    simp [runFrom, joinCount]
  | cons e t ih =>
    intro st c
    rw [runFrom_cons]
    calc roomsContaining (runFrom (step st e).1 t).1 c
        ≤ roomsContaining (step st e).1 c + joinCount c t := ih _ c
      _ ≤ (roomsContaining st c + (if isJoinEv c e then 1 else 0)) + joinCount c t :=
          Nat.add_le_add_right (roomsContaining_step_le st e c) _
      _ = roomsContaining st c + joinCount c (e :: t) := by
          rw [joinCount_cons]
          omega

/-! ### The non-empty-rooms invariant across the step relation -/

theorem roomsNonEmpty_of_eq {st st' : ServerState} (h : st'.rooms = st.rooms)
    (hne : RoomsNonEmpty st) : RoomsNonEmpty st' := by
  intro p hp
  exact hne p (h ▸ hp)

theorem roomsNonEmpty_closeStep {st : ServerState} (h : RoomsNonEmpty st) (c : Nat) :
    RoomsNonEmpty (closeStep st c).1 := by
  unfold closeStep
  cases hg : getConn st c with
  | none => exact h
  | some ws =>
    dsimp only
    split
    · rename_i hcond
      split
      · rename_i hempty
        intro p hp
        exact mapDelete_nonempty h _ p hp
      · rename_i hempty
        intro p hp
        refine mapSet_nonempty h ?_ _ p hp
        intro hnil
        rw [hnil] at hempty
        simp at hempty
    · exact h

theorem roomsNonEmpty_heartbeatBody {st : ServerState} {outs : List Delivery}
    (h : RoomsNonEmpty st) (c : Nat) : RoomsNonEmpty (heartbeatBody (st, outs) c).1 := by
  unfold heartbeatBody
  dsimp only
  cases hg : getConn st c with
  | none => exact h
  | some ws =>
    dsimp only
    split
    · exact roomsNonEmpty_closeStep h c
    · exact h

theorem roomsNonEmpty_foldl (cids : List Nat) :
    ∀ (acc : ServerState × List Delivery), RoomsNonEmpty acc.1 →
      RoomsNonEmpty (cids.foldl heartbeatBody acc).1 := by
  induction cids with
  | nil =>
    intro acc h
    exact h
  | cons x t ih =>
    intro acc h
    obtain ⟨st, outs⟩ := acc
    exact ih (heartbeatBody (st, outs) x) (roomsNonEmpty_heartbeatBody h x)

theorem roomsNonEmpty_handleMessage {st : ServerState} (h : RoomsNonEmpty st)
    (cid : Nat) (m? : Option Msg) : RoomsNonEmpty (handleMessage st cid m?).1 := by
  cases m? with
  | none => exact h
  | some msg =>
    by_cases hj : msg.type = some "join" ∧ msg.room.isSome
    · cases hg : getConn st cid with
      | none =>
        have hst : (handleMessage st cid (some msg)).1 = st := by
          unfold handleMessage
          dsimp only
          rw [hg]
        rw [hst]
        exact h
      | some ws =>
        have hred : handleMessage st cid (some msg) = handleJoin st cid ws msg := by
          unfold handleMessage
          dsimp only
          rw [hg]
          dsimp only
          rw [if_pos hj]
        rw [hred]
        intro p hp
        rw [rooms_handleJoin] at hp
        exact addMember_nonempty h _ cid p hp
    · rw [handleMessage_state_of_not_join hj]
      exact h

theorem roomsNonEmpty_step {st : ServerState} (h : RoomsNonEmpty st) (e : Event) :
    RoomsNonEmpty (step st e).1 := by
  cases e with
  | accept =>
    simp only [step]
    exact roomsNonEmpty_of_eq (rooms_acceptStep st) h
  | frame cid m =>
    simp only [step]
    split
    · exact roomsNonEmpty_handleMessage h cid m
    · exact h
  | pong cid =>
    simp only [step]
    split
    · exact roomsNonEmpty_of_eq (rooms_pongStep st cid) h
    · exact h
  | close cid =>
    simp only [step]
    split
    · exact roomsNonEmpty_closeStep h cid
    · exact h
  | sweep =>
    simp only [step, heartbeatSweep]
    exact roomsNonEmpty_foldl st.clients (st, []) h

theorem roomsNonEmpty_runFrom (es : List Event) :
    ∀ (st : ServerState), RoomsNonEmpty st → RoomsNonEmpty (runFrom st es).1 := by
  induction es with
  | nil =>
    intro st h
    exact h
  | cons e t ih =>
    intro st h
    rw [runFrom_cons]
    exact ih (step st e).1 (roomsNonEmpty_step h e)

theorem roomsNonEmpty_runEvents (es : List Event) : RoomsNonEmpty (runEvents es).1 := by
  refine roomsNonEmpty_runFrom es initState ?_
  intro p hp
  simp [initState] at hp

/-! ### Reduction helpers for the message handler -/

theorem handleMessage_join_red {st : ServerState} {cid : Nat} {w : Conn} {msg : Msg}
    (h : getConn st cid = some w) (hj : msg.type = some "join" ∧ msg.room.isSome) :
    handleMessage st cid (some msg) = handleJoin st cid w msg := by
  unfold handleMessage
  dsimp only
  rw [h]
  dsimp only
  rw [if_pos hj]

theorem handleMessage_unjoined_red {st : ServerState} {cid : Nat} {w : Conn} {msg : Msg}
    (h : getConn st cid = some w) (hne : ¬(msg.type = some "join" ∧ msg.room.isSome))
    (hro : truthyO w.roomId = false) :
    handleMessage st cid (some msg) = (st, []) := by
  unfold handleMessage
  dsimp only
  rw [h]
  dsimp only
  rw [if_neg hne, if_pos hro]

theorem handleMessage_relay_red {st : ServerState} {cid : Nat} {w : Conn} {msg : Msg}
    (h : getConn st cid = some w) (hne : ¬(msg.type = some "join" ∧ msg.room.isSome))
    (hro : truthyO w.roomId = true) (hrel : relayEligible msg.type = true) :
    handleMessage st cid (some msg) = handleRelay st cid w msg := by
  unfold handleMessage
  dsimp only
  rw [h]
  dsimp only
  rw [if_neg hne, if_neg (by simp [hro]), if_pos hrel]

theorem handleMessage_other_red {st : ServerState} {cid : Nat} {w : Conn} {msg : Msg}
    (h : getConn st cid = some w) (hne : ¬(msg.type = some "join" ∧ msg.room.isSome))
    (hro : truthyO w.roomId = true) (hrel : relayEligible msg.type = false) :
    handleMessage st cid (some msg) = (st, []) := by
  unfold handleMessage
  dsimp only
  rw [h]
  dsimp only
  rw [if_neg hne, if_neg (by simp [hro]), if_neg (by simp [hrel])]

theorem relayEligible_ne_join {t : Option String} (h : relayEligible t = true) :
    t ≠ some "join" := by
  intro he
  rw [he] at h
  exact absurd h (by decide)

theorem broadcastD_snd {st : ServerState} {r : String} {m : OutMsg} {ex : Option Nat}
    {d : Delivery} (hd : d ∈ broadcastD st r m ex) : d.2 = m := by
  unfold broadcastD at hd
  cases hq : findRoom? st.rooms r with
  | none =>
    rw [hq] at hd
    simp at hd
  | some set =>
    rw [hq] at hd
    obtain ⟨a, _, hfa⟩ := List.mem_filterMap.mp hd
    by_cases hc : (some a ≠ ex ∧ connOpen st a = true)
    · rw [if_pos hc] at hfa
      cases hfa
      rfl
    · rw [if_neg hc] at hfa
      cases hfa

theorem broadcastD_mem_ne {st : ServerState} {r : String} {m : OutMsg} {ex : Option Nat}
    {d : Delivery} (hd : d ∈ broadcastD st r m ex) : some d.1 ≠ ex := by
  unfold broadcastD at hd
  cases hq : findRoom? st.rooms r with
  | none =>
    rw [hq] at hd
    simp at hd
  | some set =>
    rw [hq] at hd
    obtain ⟨a, _, hfa⟩ := List.mem_filterMap.mp hd
    by_cases hc : (some a ≠ ex ∧ connOpen st a = true)
    · rw [if_pos hc] at hfa
      cases hfa
      exact hc.1
    · rw [if_neg hc] at hfa
      cases hfa

theorem handleRelay_fromF_irrel (st : ServerState) (cid : Nat) (w : Conn) (msg : Msg)
    (v : Option String) :
    handleRelay st cid w { msg with fromF := v } = handleRelay st cid w msg := rfl

/-! ### Claim theorems -/

/-- C2: for all sequences of events, a room identifier is a key of the
registry if and only if its member set is non-empty, and no operation
ever leaves a registry entry whose member set is empty. -/
theorem registry_key_iff_nonempty_members (es : List Event) (r : String) :
    RoomsNonEmpty (runEvents es).1 ∧
      ((findRoom? (runEvents es).1.rooms r).isSome = true ↔
        membersOf (runEvents es).1 r ≠ []) := by
  have hne := roomsNonEmpty_runEvents es
  refine ⟨hne, ?_, ?_⟩
  · intro hs
    obtain ⟨v, hv⟩ := Option.isSome_iff_exists.mp hs
    have hvne : v ≠ [] := hne (r, v) (findRoom?_mem hv)
    simpa [membersOf, hv] using hvne
  · intro hm
    cases hq : findRoom? (runEvents es).1.rooms r with
    | none => exact absurd (findRoom?_none_membersOf hq) hm
    | some v => simp

/-- C9: the relay branch overwrites any client-supplied `from` field
with the sender's assigned identifier: two relay-eligible frames that
differ only in `from` produce identical results, and every delivered
relay envelope carries `from` equal to the sender's id. -/
theorem relay_from_overwritten (st : ServerState) (cid : Nat) (w : Conn) (msg : Msg)
    (v : Option String) (h : getConn st cid = some w)
    (hrel : relayEligible msg.type = true) :
    handleMessage st cid (some msg) = handleMessage st cid (some { msg with fromF := v }) ∧
      (∀ x p, (x, OutMsg.relay p) ∈ (handleMessage st cid (some msg)).2 →
        p.fromF = some w.id) := by
  have hne : ¬(msg.type = some "join" ∧ msg.room.isSome) := by
    intro hc
    exact relayEligible_ne_join hrel hc.1
  have hne' : ¬(({ msg with fromF := v } : Msg).type = some "join" ∧
      ({ msg with fromF := v } : Msg).room.isSome) := hne
  have hrel' : relayEligible ({ msg with fromF := v } : Msg).type = true := hrel
  cases hro : truthyO w.roomId with
  | false =>
    rw [handleMessage_unjoined_red h hne hro, handleMessage_unjoined_red h hne' hro]
    exact ⟨rfl, by intro x p hp; simp at hp⟩
  | true =>
    rw [handleMessage_relay_red h hne hro hrel, handleMessage_relay_red h hne' hro hrel',
      handleRelay_fromF_irrel]
    refine ⟨rfl, ?_⟩
    intro x p hp
    unfold handleRelay at hp
    dsimp only at hp
    split at hp
    · cases hq : sendToD st (w.roomId.getD "") (msg.toF.getD "") with
      | none =>
        rw [hq] at hp
        simp at hp
      | some c =>
        rw [hq] at hp
        simp only [List.mem_singleton, Prod.mk.injEq, OutMsg.relay.injEq] at hp
        rw [hp.2]
    · have := broadcastD_snd hp
      simp only [OutMsg.relay.injEq] at this
      rw [this]

/-- C10: the close handler tests the recorded room id for JS truthiness,
so a connection whose room is the empty string is skipped entirely: the
rooms registry is untouched and nothing is emitted. -/
theorem closeStep_blankRoom_noop (st : ServerState) (c : Nat) (w : Conn)
    (h : getConn st c = some w) (hr : w.roomId = some "") :
    (closeStep st c).1.rooms = st.rooms ∧ (closeStep st c).2 = [] := by
  unfold closeStep
  rw [h]
  dsimp only
  have hf : truthyO w.roomId = false := by rw [hr]; rfl
  rw [if_neg (by simp [hf])]
  exact ⟨rfl, rfl⟩

/-- Witness for C10 at a concrete reachable state: the connection that
joined with a blank room field. -/
theorem closeStep_blankRoom_noop_witness :
    (closeStep (runEvents trJoinBlank).1 0).1.rooms = (runEvents trJoinBlank).1.rooms ∧
      (closeStep (runEvents trJoinBlank).1 0).2 = [] :=
  closeStep_blankRoom_noop (runEvents trJoinBlank).1 0
    { cid := 0, id := "u0", roomId := some "", role := Role.receiver,
      isAlive := true, isOpen := true }
    (by decide) (by decide)

theorem getConn_handleJoin (st : ServerState) (cid : Nat) (ws : Conn) (msg : Msg) (a : Nat) :
    getConn (handleJoin st cid ws msg).1 a
      = getConn (updateConn st cid (fun w =>
          { w with roomId := some (jsTrim (msg.room.getD "")),
                   role := if msg.role = some "sender" then Role.sender
                           else Role.receiver })) a := rfl

/-- C1 counterexample: a connection that joins room `"a"` and then
sends a second join naming `"b"` ends up in both rooms' member sets,
so it does not appear in at most one room. -/
theorem joinTwice_in_two_rooms :
    0 ∈ membersOf (runEvents trJoinTwice).1 "a" ∧
      0 ∈ membersOf (runEvents trJoinTwice).1 "b" ∧
      roomsContaining (runEvents trJoinTwice).1 0 = 2 := by decide

/-- C1 amended: the at-most-one-room invariant holds for every
connection that processes at most one join frame; in general a
connection can appear in as many member sets as it sent join frames,
because a later join does not remove it from the earlier room. -/
theorem atMostOneRoom_of_singleJoin (es : List Event) (c : Nat)
    (h : joinCount c es ≤ 1) : roomsContaining (runEvents es).1 c ≤ 1 := by
  have hb : roomsContaining (runEvents es).1 c
      ≤ roomsContaining initState c + joinCount c es :=
    roomsContaining_runFrom_le es initState c
  have h0 : roomsContaining initState c = 0 := rfl
  omega

/-- Witness for C1's amended theorem on a concrete single-join trace. -/
theorem atMostOneRoom_of_singleJoin_witness :
    joinCount 0 trJoinBlank ≤ 1 ∧ roomsContaining (runEvents trJoinBlank).1 0 ≤ 1 :=
  ⟨by decide, atMostOneRoom_of_singleJoin trJoinBlank 0 (by decide)⟩

/-- C3 counterexample: after joining `"a"`, a second join naming `"b"`
changes the connection's room assignment to `"b"` and adds it to
`"b"`'s member set — the claimed no-op does not happen. -/
theorem secondJoin_moves_assignment :
    (getConn (runFrom initState
        [Event.accept, Event.frame 0 (some (joinMsg "a"))]).1 0).map Conn.roomId
      = some (some "a") ∧
      (getConn (runEvents trJoinTwice).1 0).map Conn.roomId = some (some "b") ∧
      membersOf (runEvents trJoinTwice).1 "b" = [0] := by decide

/-- C3 amended: a further join frame is processed like a first one: the
room assignment is overwritten with the newly named (trimmed) room, the
connection is added to that room's member set, and every other room's
member set — in particular the previous room's — is left unchanged, so
the connection is not removed from the old room. -/
theorem secondJoin_reassigns (st : ServerState) (cid : Nat) (w : Conn) (msg : Msg)
    (s r1 : String) (h : getConn st cid = some w) (_h1 : w.roomId = some r1)
    (ht : msg.type = some "join") (hroom : msg.room = some s) :
    (getConn (handleMessage st cid (some msg)).1 cid).map Conn.roomId
        = some (some (jsTrim s)) ∧
      cid ∈ membersOf (handleMessage st cid (some msg)).1 (jsTrim s) ∧
      (∀ r, r ≠ jsTrim s →
        membersOf (handleMessage st cid (some msg)).1 r = membersOf st r) := by
  have hj : msg.type = some "join" ∧ msg.room.isSome := ⟨ht, by rw [hroom]; rfl⟩
  rw [handleMessage_join_red h hj]
  have hfid : ∀ (x : Conn),
      ({ x with
          roomId := some (jsTrim (msg.room.getD "")),
          role := if msg.role = some "sender" then Role.sender else Role.receiver
        } : Conn).cid = x.cid :=
    fun _ => rfl
  refine ⟨?_, ?_, ?_⟩
  · rw [getConn_handleJoin, getConn_updateConn_self hfid h]
    simp [hroom]
  · simp only [membersOf, rooms_handleJoin, hroom, Option.getD_some]
    rw [findRoom?_addMember_self]
    simpa using mem_setAdd_self _ cid
  · intro r hr
    simp only [membersOf, rooms_handleJoin, hroom, Option.getD_some]
    rw [findRoom?_addMember_ne hr]

/-- Witness for C3's amended theorem at a concrete state: connection 0
is joined to `"a"` and then processes a join naming `"b"`. -/
theorem secondJoin_reassigns_witness :
    (getConn (handleMessage (runFrom initState
        [Event.accept, Event.frame 0 (some (joinMsg "a"))]).1 0
        (some (joinMsg "b"))).1 0).map Conn.roomId = some (some "b") ∧
      0 ∈ membersOf (handleMessage (runFrom initState
        [Event.accept, Event.frame 0 (some (joinMsg "a"))]).1 0
        (some (joinMsg "b"))).1 "b" ∧
      membersOf (handleMessage (runFrom initState
        [Event.accept, Event.frame 0 (some (joinMsg "a"))]).1 0
        (some (joinMsg "b"))).1 "a"
        = membersOf (runFrom initState
        [Event.accept, Event.frame 0 (some (joinMsg "a"))]).1 "a" := by
  have H := secondJoin_reassigns (runFrom initState
      [Event.accept, Event.frame 0 (some (joinMsg "a"))]).1 0
    { cid := 0, id := "u0", roomId := some "a", role := Role.receiver,
      isAlive := true, isOpen := true }
    (joinMsg "b") "b" "a" (by decide) rfl rfl rfl
  have ht : jsTrim "b" = "b" := by decide
  rw [ht] at H
  exact ⟨H.1, H.2.1, H.2.2 "a" (by decide)⟩

theorem handleJoin_outs (st : ServerState) (cid : Nat) (ws : Conn) (msg : Msg) :
    (handleJoin st cid ws msg).2
      = broadcastD (handleJoin st cid ws msg).1 (jsTrim (msg.room.getD ""))
          (OutMsg.peerJoined ws.id
            (if msg.role = some "sender" then Role.sender else Role.receiver)) (some cid)
        ++ broadcastD (handleJoin st cid ws msg).1 (jsTrim (msg.room.getD ""))
            (OutMsg.roster (rosterD (handleJoin st cid ws msg).1 (jsTrim (msg.room.getD ""))))
            none
        ++ [(cid, OutMsg.roster
              (rosterD (handleJoin st cid ws msg).1 (jsTrim (msg.room.getD ""))))] := rfl

/-- C4 counterexample: a join whose room field is a single blank (which
trims to the empty string) is not rejected: the `""` registry entry is
created with the connection as member, the connection's room becomes
`""`, and it is sent two roster messages. -/
theorem blankJoin_registers :
    membersOf (runEvents trJoinBlank).1 "" = [0] ∧
      (getConn (runEvents trJoinBlank).1 0).map Conn.roomId = some (some "") ∧
      countTo (runEvents trJoinBlank).2 0 isRosterMsg = 2 := by decide

/-- C4 amended: a join frame whose room trims to the empty string is
accepted like any other join: the connection's room is set to `""`, it
is added to the `""` room's member set, and a roster is sent directly
to it. -/
theorem blankJoin_accepted (st : ServerState) (cid : Nat) (w : Conn) (msg : Msg)
    (s : String) (h : getConn st cid = some w) (ht : msg.type = some "join")
    (hroom : msg.room = some s) (hblank : jsTrim s = "") :
    (getConn (handleMessage st cid (some msg)).1 cid).map Conn.roomId = some (some "") ∧
      cid ∈ membersOf (handleMessage st cid (some msg)).1 "" ∧
      (cid, OutMsg.roster (rosterD (handleMessage st cid (some msg)).1 ""))
        ∈ (handleMessage st cid (some msg)).2 := by
  have hj : msg.type = some "join" ∧ msg.room.isSome := ⟨ht, by rw [hroom]; rfl⟩
  rw [handleMessage_join_red h hj]
  have hfid : ∀ (x : Conn),
      ({ x with
          roomId := some (jsTrim (msg.room.getD "")),
          role := if msg.role = some "sender" then Role.sender else Role.receiver
        } : Conn).cid = x.cid :=
    fun _ => rfl
  have hR : jsTrim (msg.room.getD "") = "" := by rw [hroom, Option.getD_some, hblank]
  refine ⟨?_, ?_, ?_⟩
  · rw [getConn_handleJoin, getConn_updateConn_self hfid h]
    simp [hroom, hblank]
  · simp only [membersOf, rooms_handleJoin, hR]
    rw [findRoom?_addMember_self]
    simpa using mem_setAdd_self _ cid
  · rw [handleJoin_outs, hR]
    simp

/-- Witness for C4's amended theorem: a freshly accepted connection
processes a join whose room is a single blank. -/
theorem blankJoin_accepted_witness :
    (getConn (handleMessage (runFrom initState [Event.accept]).1 0
        (some (joinMsg " "))).1 0).map Conn.roomId = some (some "") ∧
      0 ∈ membersOf (handleMessage (runFrom initState [Event.accept]).1 0
        (some (joinMsg " "))).1 "" ∧
      (0, OutMsg.roster (rosterD (handleMessage (runFrom initState [Event.accept]).1 0
        (some (joinMsg " "))).1 ""))
        ∈ (handleMessage (runFrom initState [Event.accept]).1 0 (some (joinMsg " "))).2 :=
  blankJoin_accepted (runFrom initState [Event.accept]).1 0
    { cid := 0, id := "u0", roomId := none, role := Role.receiver,
      isAlive := true, isOpen := true }
    (joinMsg " ") " " (by decide) rfl rfl (by decide)

/-- C5 counterexample: when connection 2 joins room `"r"` already
holding connections 0 and 1, the joiner receives the roster twice (once
from the unexcluded room broadcast, once from the direct send), not
exactly once as claimed. -/
theorem join_double_roster_to_joiner :
    countTo (step (runEvents trRoomPairPlus).1
        (Event.frame 2 (some (joinMsg "r")))).2 2 isRosterMsg = 2 ∧
      countTo (step (runEvents trRoomPairPlus).1
        (Event.frame 2 (some (joinMsg "r")))).2 2 isPeerJoinedMsg = 0 ∧
      countTo (step (runEvents trRoomPairPlus).1
        (Event.frame 2 (some (joinMsg "r")))).2 0 isRosterMsg = 1 ∧
      countTo (step (runEvents trRoomPairPlus).1
        (Event.frame 2 (some (joinMsg "r")))).2 0 isPeerJoinedMsg = 1 := by decide

/-- C5 amended: when `c` joins room `R` whose members are exactly
`{a, b}` (all three open), `a` and `b` each receive exactly one
`peer-joined` for `c` and one roster listing all three; `c` receives
that roster twice — once via the unexcluded room broadcast and once via
the direct send — and no `peer-joined` for itself. -/
theorem join_notifications_exact (st : ServerState) (R s : String) (a b c : Nat)
    (wa wb wc : Conn) (msg : Msg) (rl : Role)
    (hA : getConn st a = some wa) (hB : getConn st b = some wb)
    (hC : getConn st c = some wc)
    (hoA : wa.isOpen = true) (hoB : wb.isOpen = true) (hoC : wc.isOpen = true)
    (hac : a ≠ c) (hbc : b ≠ c)
    (hroom : findRoom? st.rooms R = some [a, b])
    (ht : msg.type = some "join") (hroom2 : msg.room = some s) (htr : jsTrim s = R)
    (hrl : rl = if msg.role = some "sender" then Role.sender else Role.receiver) :
    (handleMessage st c (some msg)).2
      = [(a, OutMsg.peerJoined wc.id rl), (b, OutMsg.peerJoined wc.id rl),
         (a, OutMsg.roster [(wa.id, wa.role), (wb.id, wb.role), (wc.id, rl)]),
         (b, OutMsg.roster [(wa.id, wa.role), (wb.id, wb.role), (wc.id, rl)]),
         (c, OutMsg.roster [(wa.id, wa.role), (wb.id, wb.role), (wc.id, rl)]),
         (c, OutMsg.roster [(wa.id, wa.role), (wb.id, wb.role), (wc.id, rl)])] := by
  have hj : msg.type = some "join" ∧ msg.room.isSome := ⟨ht, by rw [hroom2]; rfl⟩
  rw [handleMessage_join_red hC hj, handleJoin_outs]
  have hfid : ∀ (x : Conn),
      ({ x with
          roomId := some (jsTrim (msg.room.getD "")),
          role := if msg.role = some "sender" then Role.sender else Role.receiver
        } : Conn).cid = x.cid :=
    fun _ => rfl
  have hR' : jsTrim (msg.room.getD "") = R := by rw [hroom2, Option.getD_some, htr]
  rw [hR']
  have hrooms2 : findRoom? (handleJoin st c wc msg).1.rooms R = some [a, b, c] := by
    rw [rooms_handleJoin, hR', findRoom?_addMember_self, hroom]
    simp [setAdd, Ne.symm hac, Ne.symm hbc]
  have hga2 : getConn (handleJoin st c wc msg).1 a = some wa := by
    rw [getConn_handleJoin, getConn_updateConn_ne hfid hac]
    exact hA
  have hgb2 : getConn (handleJoin st c wc msg).1 b = some wb := by
    rw [getConn_handleJoin, getConn_updateConn_ne hfid hbc]
    exact hB
  have hgc2 : getConn (handleJoin st c wc msg).1 c
      = some ({ wc with
          roomId := some (jsTrim (msg.room.getD "")),
          role := if msg.role = some "sender" then Role.sender else Role.receiver
        } : Conn) := by
    rw [getConn_handleJoin]
    exact getConn_updateConn_self hfid hC
  have hcoA : connOpen (handleJoin st c wc msg).1 a = true := by
    unfold connOpen
    rw [hga2]
    exact hoA
  have hcoB : connOpen (handleJoin st c wc msg).1 b = true := by
    unfold connOpen
    rw [hgb2]
    exact hoB
  have hcoC : connOpen (handleJoin st c wc msg).1 c = true := by
    unfold connOpen
    rw [hgc2]
    exact hoC
  unfold broadcastD rosterD
  rw [hrooms2]
  simp only [List.filterMap_cons, List.filterMap_nil, hga2, hgb2, hgc2, hcoA, hcoB, hcoC,
    Option.map_some, ne_eq, Option.some.injEq, hac, hbc]
  simp [hac, hbc, hrl]

/-- Witness for C5's amended theorem: connection 2 joins room `"r"`
already containing connections 0 and 1. -/
theorem join_notifications_exact_witness :
    (handleMessage (runEvents trRoomPairPlus).1 2 (some (joinMsg "r"))).2
      = [(0, OutMsg.peerJoined "u2" Role.receiver),
         (1, OutMsg.peerJoined "u2" Role.receiver),
         (0, OutMsg.roster [("u0", Role.receiver), ("u1", Role.receiver),
            ("u2", Role.receiver)]),
         (1, OutMsg.roster [("u0", Role.receiver), ("u1", Role.receiver),
            ("u2", Role.receiver)]),
         (2, OutMsg.roster [("u0", Role.receiver), ("u1", Role.receiver),
            ("u2", Role.receiver)]),
         (2, OutMsg.roster [("u0", Role.receiver), ("u1", Role.receiver),
            ("u2", Role.receiver)])] :=
  join_notifications_exact (runEvents trRoomPairPlus).1 "r" "r" 0 1 2
    { cid := 0, id := "u0", roomId := some "r", role := Role.receiver,
      isAlive := true, isOpen := true }
    { cid := 1, id := "u1", roomId := some "r", role := Role.receiver,
      isAlive := true, isOpen := true }
    { cid := 2, id := "u2", roomId := none, role := Role.receiver,
      isAlive := true, isOpen := true }
    (joinMsg "r") Role.receiver
    (by decide) (by decide) (by decide) rfl rfl rfl
    (by decide) (by decide) (by decide) rfl rfl (by decide) (by decide)

theorem find?_of_unique {l : List Nat} {q : Nat → Bool} {m : Nat} (hm : m ∈ l)
    (hq : q m = true) (huniq : ∀ x ∈ l, q x = true → x = m) : l.find? q = some m := by
  induction l with
  | nil => cases hm
  | cons y t ih =>
    by_cases hy : q y = true
    · have hym : y = m := huniq y (List.mem_cons_self _ _) hy
      subst hym
      simp [List.find?_cons, hy]
    · have hyf : q y = false := Bool.eq_false_iff.mpr hy
      rw [List.find?_cons, hyf]
      have hmt : m ∈ t := by
        rcases List.mem_cons.mp hm with rfl | hmt
        · exact absurd hq hy
        · exact hmt
      exact ih hmt (fun x hx hqx => huniq x (List.mem_cons_of_mem _ hx) hqx)

/-- C6 counterexample: an offer with `to` equal to the empty string is
treated as having no `to` field (JS truthiness), so although no member
of the room has identifier `""`, the frame is broadcast and the other
member receives it. -/
theorem emptyTo_broadcasts :
    (∀ x ∈ membersOf (runEvents trRoomPair).1 "r",
        connId (runEvents trRoomPair).1 x ≠ some "") ∧
      (step (runEvents trRoomPair).1 (Event.frame 0 (some offerEmptyTo))).2
        = [(1, OutMsg.relay { type := some "offer", room := none, role := none,
                              toF := some "", fromF := some "u0",
                              rest := "sdp" })] := by decide

/-- C6 amended: for a relay-eligible frame whose `to` field is a
non-empty string, sent by a connection joined to a (truthy) room: the
state is unchanged; if no member of the room carries the named
identifier nothing is delivered; and if exactly one (open) member
carries it, exactly that member receives the envelope with `from`
re-stamped to the sender's id and all other fields intact.  A `to`
equal to the empty string is instead treated as absent (broadcast). -/
theorem unicast_delivery_exact (st : ServerState) (cid : Nat) (w : Conn) (msg : Msg)
    (R p : String) (l : List Nat)
    (h : getConn st cid = some w) (hro : w.roomId = some R) (hRne : R ≠ "")
    (hrel : relayEligible msg.type = true) (hto : msg.toF = some p) (hpne : p ≠ "")
    (hl : findRoom? st.rooms R = some l) :
    (handleMessage st cid (some msg)).1 = st ∧
      ((∀ x ∈ l, connId st x ≠ some p) → (handleMessage st cid (some msg)).2 = []) ∧
      (∀ m, m ∈ l → connId st m = some p → connOpen st m = true →
        (∀ x ∈ l, x ≠ m → connId st x ≠ some p) →
        (handleMessage st cid (some msg)).2
          = [(m, OutMsg.relay { msg with fromF := some w.id })]) := by
  have hne : ¬(msg.type = some "join" ∧ msg.room.isSome) := fun hc =>
    relayEligible_ne_join hrel hc.1
  have htro : truthyO w.roomId = true := by
    rw [hro]
    simp [truthyO, hRne]
  have htto : truthyO msg.toF = true := by
    rw [hto]
    simp [truthyO, hpne]
  rw [handleMessage_relay_red h hne htro hrel]
  have houts : (handleRelay st cid w msg).2
      = (match sendToD st R p with
        | some c' => [(c', OutMsg.relay { msg with fromF := some w.id })]
        | none => []) := by
    unfold handleRelay
    dsimp only
    rw [if_pos htto, hro, hto]
    simp only [Option.getD_some]
  refine ⟨rfl, ?_, ?_⟩
  · intro hnone
    have hs : sendToD st R p = none := by
      unfold sendToD
      rw [hl]
      refine List.find?_eq_none.mpr ?_
      intro x hx
      have hxne := hnone x hx
      simp [hxne]
    rw [houts, hs]
  · intro m hm hid hopen huniq
    have hs : sendToD st R p = some m := by
      unfold sendToD
      rw [hl]
      refine find?_of_unique hm ?_ ?_
      · simp [hid, hopen]
      · intro x hx hqx
        by_contra hxm
        have := huniq x hx hxm
        simp only [Bool.and_eq_true, beq_iff_eq] at hqx
        exact this hqx.1
    rw [houts, hs]

/-- Witness for C6's amended theorem: connection 0 sends an offer
addressed to `"u1"` in room `"r"` containing connections 0 and 1. -/
theorem unicast_delivery_exact_witness :
    (handleMessage (runEvents trRoomPair).1 0
        (some ({ type := some "offer", toF := some "u1", rest := "sdp" } : Msg))).1
      = (runEvents trRoomPair).1 ∧
      (handleMessage (runEvents trRoomPair).1 0
        (some ({ type := some "offer", toF := some "u1", rest := "sdp" } : Msg))).2
      = [(1, OutMsg.relay { type := some "offer", room := none, role := none,
                            toF := some "u1", fromF := some "u0",
                            rest := "sdp" })] := by
  have H := unicast_delivery_exact (runEvents trRoomPair).1 0
    { cid := 0, id := "u0", roomId := some "r", role := Role.receiver,
      isAlive := true, isOpen := true }
    ({ type := some "offer", toF := some "u1", rest := "sdp" } : Msg)
    "r" "u1" [0, 1]
    (by decide) rfl (by decide) (by decide) rfl (by decide) (by decide)
  exact ⟨H.1, H.2.2 1 (by decide) (by decide) (by decide) (by decide)⟩

theorem sendToD_prop {st : ServerState} {r p : String} {c' : Nat}
    (h : sendToD st r p = some c') :
    connId st c' = some p ∧ connOpen st c' = true := by
  unfold sendToD at h
  cases hq : findRoom? st.rooms r with
  | none =>
    rw [hq] at h
    cases h
  | some set =>
    rw [hq] at h
    have := List.find?_some h
    simpa using this

/-- C7 counterexample: a join frame from connection 1 results in roster
deliveries to connection 1 itself (the roster broadcast does not
exclude the sender and a direct roster is also sent), so not every
delivery triggered by a frame excludes the sender. -/
theorem join_roster_delivered_to_sender :
    countTo (step (runFrom initState
        [Event.accept, Event.accept, Event.frame 0 (some (joinMsg "r"))]).1
        (Event.frame 1 (some (joinMsg "r")))).2 1 isRosterMsg = 2 := by decide

/-- C7 amended: the only deliveries the router addresses to the sending
connection itself are roster messages (from the join branch) and a
unicast relay whose `to` field names the sender's own identifier; in
particular relay broadcasts and `peer-joined` broadcasts always exclude
the sender. -/
theorem self_delivery_only_roster_or_self_unicast (st : ServerState) (cid : Nat)
    (w : Conn) (msg : Msg) (om : OutMsg) (h : getConn st cid = some w)
    (hmem : (cid, om) ∈ (handleMessage st cid (some msg)).2) :
    (∃ ps, om = OutMsg.roster ps) ∨
      (msg.toF = some w.id ∧ om = OutMsg.relay { msg with fromF := some w.id }) := by
  by_cases hj : msg.type = some "join" ∧ msg.room.isSome
  · rw [handleMessage_join_red h hj, handleJoin_outs] at hmem
    rcases List.mem_append.mp hmem with hmem | hmem
    · rcases List.mem_append.mp hmem with hmem | hmem
      · exact (broadcastD_mem_ne hmem rfl).elim
      · left
        exact ⟨_, broadcastD_snd hmem⟩
    · simp only [List.mem_singleton, Prod.mk.injEq] at hmem
      exact Or.inl ⟨_, hmem.2⟩
  · cases htro : truthyO w.roomId with
    | false =>
      rw [handleMessage_unjoined_red h hj htro] at hmem
      exact absurd hmem (List.not_mem_nil _)
    | true =>
      cases hrel : relayEligible msg.type with
      | false =>
        rw [handleMessage_other_red h hj htro hrel] at hmem
        exact absurd hmem (List.not_mem_nil _)
      | true =>
        rw [handleMessage_relay_red h hj htro hrel] at hmem
        unfold handleRelay at hmem
        dsimp only at hmem
        split at hmem
        · rename_i htto
          cases hs : sendToD st (w.roomId.getD "") (msg.toF.getD "") with
          | none =>
            rw [hs] at hmem
            exact absurd hmem (List.not_mem_nil _)
          | some c' =>
            rw [hs] at hmem
            simp only [List.mem_singleton, Prod.mk.injEq] at hmem
            obtain ⟨hc', hom⟩ := hmem
            subst hc'
            right
            refine ⟨?_, hom⟩
            have hprop := (sendToD_prop hs).1
            unfold connId at hprop
            rw [h] at hprop
            simp only [Option.map_some', Option.some.injEq] at hprop
            cases hto : msg.toF with
            | none =>
              rw [hto] at htto
              simp [truthyO] at htto
            | some p =>
              rw [hprop, hto, Option.getD_some]
        · exact (broadcastD_mem_ne hmem rfl).elim

/-- Witness for C7's amended theorem: connection 0 unicasts an offer to
its own identifier `"u0"` and is itself the recipient. -/
theorem self_delivery_witness :
    (∃ ps, OutMsg.relay { type := some "offer", room := none, role := none,
                          toF := some "u0", fromF := some "u0",
                          rest := "sdp" } = OutMsg.roster ps) ∨
      ((offerToSelf : Msg).toF = some "u0" ∧
        OutMsg.relay { type := some "offer", room := none, role := none,
                       toF := some "u0", fromF := some "u0", rest := "sdp" }
          = OutMsg.relay { offerToSelf with fromF := some "u0" }) :=
  self_delivery_only_roster_or_self_unicast (runEvents trRoomPair).1 0
    { cid := 0, id := "u0", roomId := some "r", role := Role.receiver,
      isAlive := true, isOpen := true }
    offerToSelf
    (OutMsg.relay { type := some "offer", room := none, role := none,
                    toF := some "u0", fromF := some "u0", rest := "sdp" })
    (by decide) (by decide)

/-! ### Counting deliveries of a room broadcast -/

theorem countTo_append (o1 o2 : List Delivery) (x : Nat) (p : OutMsg → Bool) :
    countTo (o1 ++ o2) x p = countTo o1 x p + countTo o2 x p := by
  simp [countTo, List.filter_append]

theorem countTo_bcast_zero_of_notp (st : ServerState) (m : OutMsg) (ex : Option Nat)
    (x : Nat) (p : OutMsg → Bool) (set : List Nat) (hp : p m = false) :
    countTo (set.filterMap (fun c =>
      if some c ≠ ex ∧ connOpen st c = true then some (c, m) else none)) x p = 0 := by
  induction set with
  | nil => rfl
  | cons y t ih =>
    rw [List.filterMap_cons]
    by_cases hcy : (some y ≠ ex ∧ connOpen st y = true)
    · rw [if_pos hcy]
      unfold countTo
      rw [List.filter_cons, if_neg (by simp [hp])]
      exact ih
    · rw [if_neg hcy]
      exact ih

theorem countTo_bcast_zero_of_not_mem (st : ServerState) (m : OutMsg) (ex : Option Nat)
    (x : Nat) (p : OutMsg → Bool) (set : List Nat) (hx : x ∉ set) :
    countTo (set.filterMap (fun c =>
      if some c ≠ ex ∧ connOpen st c = true then some (c, m) else none)) x p = 0 := by
  induction set with
  | nil => rfl
  | cons y t ih =>
    have hxy : ¬x = y := fun he => hx (List.mem_cons.mpr (Or.inl he))
    have hyx : (y == x) = false := beq_eq_false_iff_ne.mpr (fun he => hxy he.symm)
    have hxt : x ∉ t := fun hh => hx (List.mem_cons_of_mem _ hh)
    rw [List.filterMap_cons]
    by_cases hcy : (some y ≠ ex ∧ connOpen st y = true)
    · rw [if_pos hcy]
      unfold countTo
      rw [List.filter_cons, if_neg (by simp [hyx])]
      exact ih hxt
    · rw [if_neg hcy]
      exact ih hxt

theorem countTo_bcast_one (st : ServerState) (m : OutMsg) (x : Nat) (p : OutMsg → Bool)
    (set : List Nat) (hnd : set.Nodup) (hx : x ∈ set) (hopen : connOpen st x = true)
    (hp : p m = true) :
    countTo (set.filterMap (fun c =>
      if some c ≠ (none : Option Nat) ∧ connOpen st c = true then some (c, m) else none))
      x p = 1 := by
  induction set with
  | nil => cases hx
  | cons y t ih =>
    rcases List.mem_cons.mp hx with rfl | hxt
    · rw [List.filterMap_cons, if_pos ⟨by simp, hopen⟩]
      unfold countTo
      rw [List.filter_cons, if_pos (by simp [hp])]
      simp only [List.length_cons]
      have h0 := countTo_bcast_zero_of_not_mem st m none x p t (List.nodup_cons.mp hnd).1
      unfold countTo at h0
      rw [h0]
    · have hynx : (y == x) = false := by
        refine beq_eq_false_iff_ne.mpr ?_
        intro he
        exact (List.nodup_cons.mp hnd).1 (he ▸ hxt)
      rw [List.filterMap_cons]
      by_cases hcy : (some y ≠ (none : Option Nat) ∧ connOpen st y = true)
      · rw [if_pos hcy]
        unfold countTo
        rw [List.filter_cons, if_neg (by simp [hynx])]
        exact ih (List.nodup_cons.mp hnd).2 hxt
      · rw [if_neg hcy]
        exact ih (List.nodup_cons.mp hnd).2 hxt

theorem countTo_broadcastD_one (st : ServerState) (r : String) (m : OutMsg) (x : Nat)
    (p : OutMsg → Bool) (set : List Nat) (hq : findRoom? st.rooms r = some set)
    (hnd : set.Nodup) (hx : x ∈ set) (hopen : connOpen st x = true) (hp : p m = true) :
    countTo (broadcastD st r m none) x p = 1 := by
  unfold broadcastD
  rw [hq]
  exact countTo_bcast_one st m x p set hnd hx hopen hp

theorem countTo_broadcastD_zero (st : ServerState) (r : String) (m : OutMsg)
    (ex : Option Nat) (x : Nat) (p : OutMsg → Bool) (hp : p m = false) :
    countTo (broadcastD st r m ex) x p = 0 := by
  unfold broadcastD
  cases hq : findRoom? st.rooms r with
  | none => rfl
  | some set => exact countTo_bcast_zero_of_notp st m ex x p set hp

theorem getConn_congr {st1 st2 : ServerState} (h : st1.conns = st2.conns) (x : Nat) :
    getConn st1 x = getConn st2 x := by
  unfold getConn
  rw [h]

theorem closeStep_sole (st : ServerState) (c : Nat) (w : Conn) (r : String)
    (l : List Nat) (h : getConn st c = some w) (hr : w.roomId = some r) (hrne : r ≠ "")
    (hl : findRoom? st.rooms r = some l) (hemp : l.filter (fun x => x != c) = []) :
    (closeStep st c).2 = [] ∧ findRoom? (closeStep st c).1.rooms r = none := by
  unfold closeStep
  rw [h]
  dsimp only
  rw [rooms_updateConn, hr]
  simp only [Option.getD_some]
  rw [if_pos ⟨by simp [truthyO, hrne], by rw [hl]; rfl⟩]
  rw [hl]
  simp only [Option.getD_some]
  rw [if_pos (by rw [hemp]; rfl)]
  exact ⟨rfl, findRoom?_mapDelete_self st.rooms r⟩

theorem closeStep_members_outs (st : ServerState) (c : Nat) (w : Conn) (r : String)
    (l : List Nat) (h : getConn st c = some w) (hr : w.roomId = some r) (hrne : r ≠ "")
    (hl : findRoom? st.rooms r = some l)
    (hne2 : l.filter (fun x => x != c) ≠ []) :
    ∃ stC : ServerState,
      stC.rooms = mapSet st.rooms r (l.filter (fun x => x != c)) ∧
      stC.conns = (updateConn st c (fun x => { x with isOpen := false })).conns ∧
      (closeStep st c).2
        = broadcastD stC r (OutMsg.peerLeft w.id) none
          ++ broadcastD stC r (OutMsg.roster (rosterD stC r)) none := by
  unfold closeStep
  rw [h]
  dsimp only
  rw [rooms_updateConn, hr]
  simp only [Option.getD_some]
  rw [if_pos ⟨by simp [truthyO, hrne], by rw [hl]; rfl⟩]
  rw [hl]
  simp only [Option.getD_some]
  rw [if_neg (by simp [List.isEmpty_iff, hne2])]
  refine ⟨{ (updateConn st c (fun x => { x with isOpen := false })) with
      clients := (updateConn st c (fun x => { x with isOpen := false })).clients.filter
        (fun y => y != c),
      rooms := mapSet st.rooms r (l.filter (fun x => x != c)) }, rfl, rfl, rfl⟩

/-- C8 counterexample: two connections share the empty-string room (via
blank join fields); connection 0 fails two sweeps.  The next sweep
terminates it, but because the recorded room `""` is falsy the close
path does nothing: the only output is the ping to connection 1 — no
`peer-left`, no roster — and the dead connection stays in the member
set. -/
theorem sweep_blankRoom_silent :
    (getConn (runEvents trBlankRoomDead).1 0).map Conn.isAlive = some false ∧
      membersOf (runEvents trBlankRoomDead).1 "" = [0, 1] ∧
      (step (runEvents trBlankRoomDead).1 Event.sweep).2 = [(1, OutMsg.ping)] ∧
      membersOf (step (runEvents trBlankRoomDead).1 Event.sweep).1 "" = [0, 1] := by decide

/-- C8 amended: at each sweep iteration, a connection with a true
liveness flag has the flag cleared and is pinged; one with a false flag
is terminated through the ordinary close path.  That close path, for a
recorded room that is a non-empty string and still registered: if the
connection was the sole member the room is deleted with no emissions,
and otherwise each remaining open member receives exactly one
`peer-left` and one `roster`.  (A recorded room equal to `""`, or a
stale membership left by a superseded join, produces no emissions —
see the counterexample.) -/
theorem sweep_step_behavior (st : ServerState) (outs : List Delivery) (c : Nat) (w : Conn)
    (h : getConn st c = some w) :
    (w.isAlive = true →
      heartbeatBody (st, outs) c
        = (updateConn st c (fun x => { x with isAlive := false }),
           outs ++ [(c, OutMsg.ping)])) ∧
    (w.isAlive = false →
      heartbeatBody (st, outs) c = ((closeStep st c).1, outs ++ (closeStep st c).2)) ∧
    (∀ r l, w.roomId = some r → r ≠ "" → findRoom? st.rooms r = some l →
      l.filter (fun x => x != c) = [] →
      (closeStep st c).2 = [] ∧ findRoom? (closeStep st c).1.rooms r = none) ∧
    (∀ r l, w.roomId = some r → r ≠ "" → findRoom? st.rooms r = some l → l.Nodup →
      ∀ x ∈ l.filter (fun y => y != c), connOpen st x = true →
        countTo (closeStep st c).2 x isPeerLeftMsg = 1 ∧
        countTo (closeStep st c).2 x isRosterMsg = 1) := by
  refine ⟨?_, ?_, ?_, ?_⟩
  · intro ha
    unfold heartbeatBody
    dsimp only
    rw [h]
    dsimp only
    rw [if_neg (by simp [ha])]
  · intro ha
    unfold heartbeatBody
    dsimp only
    rw [h]
    dsimp only
    rw [if_pos ha]
  · intro r l hr hrne hl hemp
    exact closeStep_sole st c w r l h hr hrne hl hemp
  · intro r l hr hrne hl hnd x hx hopen
    obtain ⟨stC, hrooms, hconns, houts⟩ :=
      closeStep_members_outs st c w r l h hr hrne hl (by
        intro hnil
        rw [hnil] at hx
        cases hx)
    have hxc : x ≠ c := by
      have := (List.mem_filter.mp hx).2
      simpa using this
    have hfr : findRoom? stC.rooms r = some (l.filter (fun y => y != c)) := by
      rw [hrooms]
      exact findRoom?_mapSet_self st.rooms r _
    have hnd2 : (l.filter (fun y => y != c)).Nodup := hnd.filter _
    have hco : connOpen stC x = true := by
      have h1 : getConn stC x
          = getConn (updateConn st c (fun y => { y with isOpen := false })) x :=
        getConn_congr hconns x
      have h2 : getConn (updateConn st c (fun y => { y with isOpen := false })) x
          = getConn st x :=
        getConn_updateConn_ne (fun _ => rfl) hxc
      unfold connOpen at hopen ⊢
      rw [h1, h2]
      exact hopen
    rw [houts]
    constructor
    · rw [countTo_append,
        countTo_broadcastD_one stC r (OutMsg.peerLeft w.id) x isPeerLeftMsg _ hfr hnd2 hx hco
          rfl,
        countTo_broadcastD_zero stC r (OutMsg.roster (rosterD stC r)) none x isPeerLeftMsg
          rfl]
    · rw [countTo_append,
        countTo_broadcastD_zero stC r (OutMsg.peerLeft w.id) none x isRosterMsg rfl,
        countTo_broadcastD_one stC r (OutMsg.roster (rosterD stC r)) x isRosterMsg _ hfr
          hnd2 hx hco rfl]

/-- Witness for C8's amended theorem: connection 0, flagged dead in
room `"r"` shared with the open connection 1, is closed; connection 1
receives exactly one `peer-left` and one roster. -/
theorem sweep_step_behavior_witness :
    countTo (closeStep (runFrom initState
        [Event.accept, Event.accept,
         Event.frame 0 (some (joinMsg "r")), Event.frame 1 (some (joinMsg "r")),
         Event.sweep, Event.pong 1]).1 0).2 1 isPeerLeftMsg = 1 ∧
      countTo (closeStep (runFrom initState
        [Event.accept, Event.accept,
         Event.frame 0 (some (joinMsg "r")), Event.frame 1 (some (joinMsg "r")),
         Event.sweep, Event.pong 1]).1 0).2 1 isRosterMsg = 1 :=
  (sweep_step_behavior (runFrom initState
      [Event.accept, Event.accept,
       Event.frame 0 (some (joinMsg "r")), Event.frame 1 (some (joinMsg "r")),
       Event.sweep, Event.pong 1]).1 [] 0
    { cid := 0, id := "u0", roomId := some "r", role := Role.receiver,
      isAlive := false, isOpen := true }
    (by decide)).2.2.2 "r" [0, 1] rfl (by decide) (by decide) (by decide)
    1 (by decide) (by decide)

/-- Witness for C9: a candidate frame with a forged `from` field
produces the same result as the same frame without one, and the
delivered payload carries the sender's real id `"u0"`. -/
theorem relay_from_overwritten_witness :
    handleMessage (runEvents trRoomPair).1 0
        (some ({ type := some "candidate", fromF := some "forged", rest := "x" } : Msg))
      = handleMessage (runEvents trRoomPair).1 0
        (some ({ type := some "candidate", fromF := none, rest := "x" } : Msg)) ∧
      ({ type := some "candidate", room := none, role := none, toF := none,
          fromF := some "u0", rest := "x" } : Msg).fromF = some "u0" := by
  have H := relay_from_overwritten (runEvents trRoomPair).1 0
    { cid := 0, id := "u0", roomId := some "r", role := Role.receiver,
      isAlive := true, isOpen := true }
    ({ type := some "candidate", fromF := some "forged", rest := "x" } : Msg)
    none (by decide) (by decide)
  exact ⟨H.1, H.2 1 ({ type := some "candidate", room := none, role := none, toF := none,
                       fromF := some "u0", rest := "x" } : Msg) (by decide)⟩
